import Mathlib

/-!
Verification of the Secure-Vault cryptographic and storage engine.

This file is a shallow embedding of the engine's source modules:
the crypto utilities (key derivation, AES-GCM envelope, chaff
obfuscation), the partitioned key-value storage with audit logging and
export/import, the authentication module, and the record-lifecycle /
crypto providers.  Stateful TypeScript code becomes explicit state
passing over association lists; the browser's random source becomes an
explicit byte stream threaded through every definition that draws
randomness; fallible code returns Option or Except.
-/

namespace SecureVault

/-- Model of the random source (window.crypto.getRandomValues and
Math.random).  The stream field is the infinite sequence of raw draws;
pos is how many draws have been consumed.  A byte draw reduces the raw
value mod 256, exactly the range of one Uint8Array cell. -/
structure Rng where
  stream : Nat → Nat
  pos : Nat

/-- Draw one raw value from the stream (models one Math.random-style draw). -/
def Rng.next (r : Rng) : Nat × Rng :=
  (r.stream r.pos, ⟨r.stream, r.pos + 1⟩)

/-- Draw one byte, as one cell of getRandomValues(new Uint8Array(n)). -/
def Rng.nextByte (r : Rng) : Nat × Rng :=
  ((r.stream r.pos) % 256, ⟨r.stream, r.pos + 1⟩)

/-- Draw n bytes in order, as getRandomValues(new Uint8Array(n)). -/
def drawBytes : Nat → Rng → List Nat × Rng
  | 0, r => ([], r)
  | n + 1, r =>
    let (b, r1) := r.nextByte
    let (bs, r2) := drawBytes n r1
    (b :: bs, r2)

theorem drawBytes_length (n : Nat) (r : Rng) : (drawBytes n r).1.length = n := by
  induction n generalizing r with
  | zero => rfl
  | succ k ih => simp [drawBytes, Rng.nextByte, ih]

theorem drawBytes_lt (n : Nat) (r : Rng) : ∀ b ∈ (drawBytes n r).1, b < 256 := by
  induction n generalizing r with
  | zero => intro b hb; simp [drawBytes] at hb
  | succ k ih =>
    intro b hb
    have hb' : b = r.stream r.pos % 256 ∨ b ∈ (drawBytes k ⟨r.stream, r.pos + 1⟩).1 := by
      simpa [drawBytes, Rng.nextByte] using hb
    rcases hb' with h | h
    · subst h; exact Nat.mod_lt _ (by omega)
    · exact ih _ b h

/-- Model of one namespace of the persistent key-value backend
(a localforage instance): an association list with unique keys, in the
backend's enumeration order.  setItem is the backend's upsert: replace
the value stored under the key if present, append otherwise. -/
def setItem {α : Type} : List (String × α) → String → α → List (String × α)
  | [], k, v => [(k, v)]
  | (k1, v1) :: rest, k, v =>
    if k1 = k then (k, v) :: rest else (k1, v1) :: setItem rest k v

/-- Model of removeItem: drop the entry stored under the key. -/
def removeItem {α : Type} (m : List (String × α)) (k : String) : List (String × α) :=
  m.filter (fun p => p.1 ≠ k)

@[simp] theorem lookup_setItem_self {α : Type} (m : List (String × α)) (k : String) (v : α) :
    (setItem m k v).lookup k = some v := by
  induction m with
  | nil => simp [setItem, List.lookup]
  | cons p rest ih =>
    obtain ⟨k1, v1⟩ := p
    by_cases h : k1 = k
    · simp [setItem, h, List.lookup]
    · have hb : (k == k1) = false := beq_eq_false_iff_ne.mpr (Ne.symm h)
      simp [setItem, h, List.lookup, hb, ih]

@[simp] theorem lookup_setItem_ne {α : Type} (m : List (String × α)) (k k' : String) (v : α)
    (h : k' ≠ k) : (setItem m k v).lookup k' = m.lookup k' := by
  have hb : (k' == k) = false := beq_eq_false_iff_ne.mpr h
  induction m with
  | nil => simp [setItem, List.lookup, hb]
  | cons p rest ih =>
    obtain ⟨k1, v1⟩ := p
    by_cases hp : k1 = k
    · subst hp
      simp [setItem, List.lookup, hb]
    · by_cases hk : k' = k1
      · have hb2 : (k' == k1) = true := beq_iff_eq.mpr hk
        simp [setItem, hp, List.lookup, hb2]
      · have hb2 : (k' == k1) = false := beq_eq_false_iff_ne.mpr hk
        simp [setItem, hp, List.lookup, hb2, ih]

theorem lookup_eq_none_of_not_mem {α : Type} (m : List (String × α)) (k : String)
    (h : k ∉ m.map Prod.fst) : m.lookup k = none := by
  induction m with
  | nil => rfl
  | cons p rest ih =>
    simp only [List.map_cons, List.mem_cons] at h
    push_neg at h
    have hb : (k == p.1) = false := beq_eq_false_iff_ne.mpr h.1
    simp [List.lookup, hb, ih h.2]

theorem lookup_of_mem_of_nodup {α : Type} (m : List (String × α)) (e : String × α)
    (hnd : (m.map Prod.fst).Nodup) (hmem : e ∈ m) : m.lookup e.1 = some e.2 := by
  induction m with
  | nil => simp at hmem
  | cons p rest ih =>
    simp only [List.map_cons, List.nodup_cons] at hnd
    rcases List.mem_cons.mp hmem with h | h
    · subst h
      simp [List.lookup]
    · have hne : e.1 ≠ p.1 := by
        intro hcontra
        exact hnd.1 (hcontra ▸ List.mem_map_of_mem Prod.fst h)
      have hb : (e.1 == p.1) = false := beq_eq_false_iff_ne.mpr hne
      simp [List.lookup, hb, ih hnd.2 h]

/-- Primitive field values as they appear in a vault item's plaintext
field map (the chaff layer's input domain: string, number, boolean). -/
inductive PrimValue where
  | str (s : String)
  | num (n : Int)
  | bool (b : Bool)
deriving DecidableEq, Repr

/-- Model of the JavaScript typeof operator on a primitive value,
as used by addChaffToData to pick the decoy kind. -/
def typeofVal : PrimValue → String
  | .str _ => "string"
  | .num _ => "number"
  | .bool _ => "boolean"

/-- One entry of the obfuscated map: the stored value plus the isReal
marker, exactly the object literal written by addChaffToData. -/
structure ChaffField where
  value : PrimValue
  isReal : Bool
deriving DecidableEq, Repr

/-- The alphabet used by generateRandomString. -/
def chaffChars : List Char :=
  "ABCDEFGHIJKLMNOPQRSTUVWXYZabcdefghijklmnopqrstuvwxyz0123456789".data

/-- Model of generateRandomString: draw one byte per character and index
into the 62-character alphabet with the byte mod 62. -/
def genRandomString (len : Nat) (rng : Rng) : String × Rng :=
  let (bs, rng1) := drawBytes len rng
  (⟨bs.map (fun b => chaffChars.getD (b % 62) 'A')⟩, rng1)

/-- Model of generateChaffValue.  The crypto-quality draws of
generateRandomString go through drawBytes; the Math.random draws (string
length, number, boolean, date offset) are modelled as one raw stream
draw each, reduced to the range the source computes (8 + floor(r*8),
floor(r*1000), r > 0.5, day offset within a year).  The ISO date string
built from the current date is modelled as a marked string since no
claim inspects decoy values. -/
def generateChaffValue (fieldType : String) (rng : Rng) : PrimValue × Rng :=
  if fieldType = "string" then
    let (r, rng1) := rng.next
    let (s, rng2) := genRandomString (8 + r % 8) rng1
    (.str s, rng2)
  else if fieldType = "number" then
    let (r, rng1) := rng.next
    (.num (r % 1000), rng1)
  else if fieldType = "boolean" then
    let (r, rng1) := rng.next
    (.bool (r % 2 = 0), rng1)
  else if fieldType = "date" then
    let (r, rng1) := rng.next
    (.str ("date-" ++ toString (r % 365)), rng1)
  else
    let (s, rng1) := genRandomString 10 rng
    (.str s, rng1)

/-- The decoy entries generated for one real field by the inner loop of
addChaffToData: each iteration draws a fresh 4-character suffix, forms
key "_" suffix, and fills in a type-matched chaff value. -/
def decoyEntries (key : String) (fieldType : String) (rng : Rng) :
    Nat → List (String × ChaffField) × Rng
  | 0 => ([], rng)
  | n + 1 =>
    let (suffix, rng1) := genRandomString 4 rng
    let (cv, rng2) := generateChaffValue fieldType rng1
    let (rest, rng3) := decoyEntries key fieldType rng2 n
    ((key ++ "_" ++ suffix, ⟨cv, false⟩) :: rest, rng3)

/-- The entries generated for one real field: the real entry (random
4-character suffix, isReal true) followed by the decoys. -/
def fieldEntries (key : String) (v : PrimValue) (decoys : Nat) (rng : Rng) :
    List (String × ChaffField) × Rng :=
  let (suffix, rng1) := genRandomString 4 rng
  let (ds, rng2) := decoyEntries key (typeofVal v) rng1 decoys
  ((key ++ "_" ++ suffix, ⟨v, true⟩) :: ds, rng2)

/-- The first phase of addChaffToData over the whole field map: in input
order, generate the real entry and the decoys of every field.  The
result list records every assignment result[key] = field in execution
order; the pushed allKeys list is exactly the keys of these entries. -/
def buildEntries (decoys : Nat) : List (String × PrimValue) → Rng →
    List (String × ChaffField) × Rng
  | [], rng => ([], rng)
  | (k, v) :: fields, rng =>
    let (es, rng1) := fieldEntries k v decoys rng
    let (rest, rng2) := buildEntries decoys fields rng1
    (es ++ rest, rng2)

/-- Reading result[key] on the intermediate JavaScript object: the last
assignment under a key wins, so look the key up in the reversed
assignment list. -/
def jsLookup (entries : List (String × ChaffField)) (k : String) : Option ChaffField :=
  entries.reverse.lookup k

/-- The swap index drawn by shuffleArray at position i:
Math.floor((byte / 255) * (i + 1)), which over the integer inputs the
source feeds it is the floor of byte * (i + 1) / 255. -/
def jIndex (byte i : Nat) : Nat :=
  byte * (i + 1) / 255

/-- A JavaScript array read a[j]: undefined when out of bounds.  The
element type is itself Option String because a slot can hold undefined
after an out-of-bounds swap. -/
def jsGet (a : List (Option String)) (j : Nat) : Option String :=
  (a.get? j).join

/-- A JavaScript array write a[j] = v for j at most the length: set in
bounds, append at the end (the only out-of-bounds index shuffleArray
can produce is the length itself, at the first loop iteration). -/
def jsSet (a : List (Option String)) (j : Nat) (v : Option String) : List (Option String) :=
  if j < a.length then a.set j v else a ++ [v]

/-- The destructuring swap of shuffleArray: both reads happen before
both writes, and the writes land left to right. -/
def jsSwap (a : List (Option String)) (i j : Nat) : List (Option String) :=
  let x := jsGet a j
  let y := jsGet a i
  jsSet (jsSet a i x) j y

/-- The loop of shuffleArray, counting i down from the initial length
minus one to one; each iteration draws one byte and swaps positions
i and jIndex byte i. -/
def shuffleLoop (rng : Rng) (a : List (Option String)) :
    Nat → List (Option String) × Rng
  | 0 => (a, rng)
  | i + 1 =>
    let (b, rng1) := rng.nextByte
    let j := jIndex b (i + 1)
    shuffleLoop rng1 (jsSwap a (i + 1) j) i

/-- Model of shuffleArray. -/
def shuffleArray (a : List (Option String)) (rng : Rng) :
    List (Option String) × Rng :=
  shuffleLoop rng a (a.length - 1)

/-- Model of addChaffToData: build every real and decoy entry, collect
their keys, shuffle the keys, then re-key the shuffled sequence as
field_0, field_1, ...; each output slot holds result[key] for its
shuffled key, which is undefined (none) when the key slot itself became
undefined during an out-of-bounds swap. -/
def addChaffToData (fields : List (String × PrimValue)) (decoys : Nat) (rng : Rng) :
    List (String × Option ChaffField) × Rng :=
  let (entries, rng1) := buildEntries decoys fields rng
  let allKeys := entries.map Prod.fst
  let (shuffled, rng2) := shuffleArray (allKeys.map some) rng1
  (shuffled.enum.map (fun p => ("field_" ++ toString p.1, p.2.bind (jsLookup entries))), rng2)

/-- The JavaScript split on underscores, over a character list. -/
def splitUnderscore : List Char → List (List Char)
  | [] => [[]]
  | c :: rest =>
    match splitUnderscore rest with
    | [] => [[c]]
    | h :: t => if c = '_' then [] :: h :: t else (c :: h) :: t

/-- The JavaScript join with underscore separators. -/
def joinUnderscore : List (List Char) → List Char
  | [] => []
  | [x] => x
  | x :: y :: rest => x ++ '_' :: joinUnderscore (y :: rest)

/-- The key under which removeChaffFromData re-files a real entry.  The
source reads Object.keys(item)[0] - the first property name of the
{value, isReal} object literal, which is the string "value" - splits it
on underscores, pops the last segment, and rejoins; the argument object
carries no field-name information, so this computes the empty string for
every item. -/
def chaffOriginalKey (_item : ChaffField) : String :=
  ⟨joinUnderscore (splitUnderscore "value".data).dropLast⟩

/-- An object write result[k] = v during removeChaffFromData: replace in
place if the key exists, append otherwise. -/
def jsUpsert (m : List (String × PrimValue)) (k : String) (v : PrimValue) :
    List (String × PrimValue) :=
  setItem m k v

/-- The iteration of removeChaffFromData over Object.values of its
input; touching a property of an undefined slot throws, modelled as
none. -/
def removeChaffLoop (acc : List (String × PrimValue)) :
    List (String × Option ChaffField) → Option (List (String × PrimValue))
  | [] => some acc
  | (_, none) :: _ => none
  | (_, some item) :: rest =>
    if item.isReal then
      removeChaffLoop (jsUpsert acc (chaffOriginalKey item) item.value) rest
    else
      removeChaffLoop acc rest

/-- Model of removeChaffFromData. -/
def removeChaffFromData (data : List (String × Option ChaffField)) :
    Option (List (String × PrimValue)) :=
  removeChaffLoop [] data

/-- Stable insertion into a descending-sorted list: the new element goes
after every element whose key is at least its own.  This realizes the
stable descending comparator sort (a, b) => b.key - a.key used on audit
pages and item listings. -/
def insertByDesc {α : Type} (key : α → Int) (x : α) : List α → List α
  | [] => [x]
  | y :: ys => if key y ≤ key x then x :: y :: ys else y :: insertByDesc key x ys

/-- Stable descending sort by an integer key. -/
def sortByDesc {α : Type} (key : α → Int) : List α → List α
  | [] => []
  | x :: xs => insertByDesc key x (sortByDesc key xs)

theorem insertByDesc_perm {α : Type} (key : α → Int) (x : α) (l : List α) :
    (insertByDesc key x l).Perm (x :: l) := by
  induction l with
  | nil => exact List.Perm.refl _
  | cons y ys ih =>
    by_cases h : key y ≤ key x
    · simp [insertByDesc, h]
    · simpa [insertByDesc, h] using (ih.cons y).trans (List.Perm.swap x y ys)

theorem sortByDesc_perm {α : Type} (key : α → Int) (l : List α) :
    (sortByDesc key l).Perm l := by
  induction l with
  | nil => exact List.Perm.refl _
  | cons x xs ih =>
    exact (insertByDesc_perm key x (sortByDesc key xs)).trans (ih.cons x)

theorem insertByDesc_sorted {α : Type} (key : α → Int) (x : α) (l : List α)
    (h : l.Pairwise (fun a b => key b ≤ key a)) :
    (insertByDesc key x l).Pairwise (fun a b => key b ≤ key a) := by
  induction l with
  | nil => simp [insertByDesc]
  | cons y ys ih =>
    rcases List.pairwise_cons.mp h with ⟨hy, hys⟩
    by_cases hc : key y ≤ key x
    · simp only [insertByDesc, hc, if_true]
      refine List.pairwise_cons.mpr ⟨?_, h⟩
      intro z hz
      rcases List.mem_cons.mp hz with hz | hz
      · exact hz ▸ hc
      · exact le_trans (hy z hz) hc
    · simp only [insertByDesc, hc, if_false]
      refine List.pairwise_cons.mpr ⟨?_, ih hys⟩
      intro z hz
      rcases List.mem_cons.mp ((insertByDesc_perm key x ys).mem_iff.mp hz) with hz | hz
      · exact hz ▸ le_of_lt (not_le.mp hc)
      · exact hy z hz

theorem sortByDesc_sorted {α : Type} (key : α → Int) (l : List α) :
    (sortByDesc key l).Pairwise (fun a b => key b ≤ key a) := by
  induction l with
  | nil => simp [sortByDesc]
  | cons x xs ih => exact insertByDesc_sorted key x _ ih

theorem sortByDesc_mem {α : Type} (key : α → Int) (l : List α) (a : α) :
    a ∈ sortByDesc key l ↔ a ∈ l :=
  (sortByDesc_perm key l).mem_iff

theorem get_cons_set_perm {α : Type} :
    ∀ (t : List α) (m : Nat) (hm : m < t.length) (x : α),
      (t.get ⟨m, hm⟩ :: t.set m x).Perm (x :: t) := by
  intro t
  induction t with
  | nil => intro m hm; simp at hm
  | cons y s ih =>
    intro m hm x
    cases m with
    | zero => simpa using List.Perm.swap x y s
    | succ k =>
      have hk : k < s.length := by simpa using hm
      have step : (s.get ⟨k, hk⟩ :: y :: s.set k x).Perm (y :: s.get ⟨k, hk⟩ :: s.set k x) :=
        List.Perm.swap y (s.get ⟨k, hk⟩) (s.set k x)
      have tail : (y :: s.get ⟨k, hk⟩ :: s.set k x).Perm (y :: x :: s) :=
        (ih k hk x).cons y
      simpa using (step.trans tail).trans (List.Perm.swap x y s)

theorem set_set_swap_perm {α : Type} :
    ∀ (a : List α) (i j : Nat) (hi : i < a.length) (hj : j < a.length),
      ((a.set i (a.get ⟨j, hj⟩)).set j (a.get ⟨i, hi⟩)).Perm a := by
  intro a
  induction a with
  | nil => intro i j hi; simp at hi
  | cons x t ih =>
    intro i j hi hj
    cases i with
    | zero =>
      cases j with
      | zero => simp
      | succ m =>
        have hm : m < t.length := by simpa using hj
        simpa using get_cons_set_perm t m hm x
    | succ n =>
      cases j with
      | zero =>
        have hn : n < t.length := by simpa using hi
        simpa using get_cons_set_perm t n hn x
      | succ m =>
        have hn : n < t.length := by simpa using hi
        have hm : m < t.length := by simpa using hj
        simpa using (ih n m hn hm).cons x

theorem jsGet_eq {a : List (Option String)} {j : Nat} (hj : j < a.length) :
    jsGet a j = a.get ⟨j, hj⟩ := by
  rw [jsGet, List.get?_eq_get hj]
  rfl

theorem jsSwap_eq_set_set {a : List (Option String)} {i j : Nat}
    (hi : i < a.length) (hj : j < a.length) :
    jsSwap a i j = (a.set i (a.get ⟨j, hj⟩)).set j (a.get ⟨i, hi⟩) := by
  simp only [jsSwap, jsGet_eq hi, jsGet_eq hj, jsSet, List.length_set, hi, hj, if_true]

theorem jsSwap_perm {a : List (Option String)} {i j : Nat}
    (hi : i < a.length) (hj : j < a.length) : (jsSwap a i j).Perm a := by
  rw [jsSwap_eq_set_set hi hj]
  exact set_set_swap_perm a i j hi hj

theorem jIndex_le {b i : Nat} (hb : b < 255) : jIndex b i ≤ i := by
  have h : b * (i + 1) < (i + 1) * 255 := by
    calc b * (i + 1) < 255 * (i + 1) := mul_lt_mul_of_pos_right hb (by omega)
    _ = (i + 1) * 255 := Nat.mul_comm _ _
  have h2 := (Nat.div_lt_iff_lt_mul (k := 255) (by omega)).mpr h
  simp only [jIndex]
  omega

theorem jIndex_le_succ {b : Nat} (i : Nat) (hb : b ≤ 255) : jIndex b i ≤ i + 1 := by
  have h : b * (i + 1) ≤ 255 * (i + 1) := Nat.mul_le_mul_right _ hb
  calc jIndex b i ≤ 255 * (i + 1) / 255 := Nat.div_le_div_right h
  _ = i + 1 := Nat.mul_div_cancel_left _ (by omega)

theorem jIndex_at_255 (i : Nat) : jIndex 255 i = i + 1 := by
  simp [jIndex, Nat.mul_div_cancel_left _ (show 0 < 255 by omega)]

theorem shuffleLoop_perm :
    ∀ (fuel : Nat) (a : List (Option String)) (rng : Rng),
      (∀ n, rng.stream n % 256 < 255) → fuel < a.length →
      (shuffleLoop rng a fuel).1.Perm a := by
  intro fuel
  induction fuel with
  | zero => intro a rng _ _; exact List.Perm.refl _
  | succ k ih =>
    intro a rng hbytes hlen
    have hb : rng.stream rng.pos % 256 < 255 := hbytes rng.pos
    have hj : jIndex (rng.stream rng.pos % 256) (k + 1) ≤ k + 1 := jIndex_le hb
    have hi : k + 1 < a.length := hlen
    have hjlt : jIndex (rng.stream rng.pos % 256) (k + 1) < a.length :=
      lt_of_le_of_lt hj hi
    have hswap := jsSwap_perm (a := a) hi hjlt
    have hlen2 : k < (jsSwap a (k + 1) (jIndex (rng.stream rng.pos % 256) (k + 1))).length := by
      rw [hswap.length_eq]; omega
    have hrec := ih (jsSwap a (k + 1) (jIndex (rng.stream rng.pos % 256) (k + 1)))
      ⟨rng.stream, rng.pos + 1⟩ (fun n => hbytes n) hlen2
    exact (by simpa [shuffleLoop, Rng.nextByte] using hrec.trans hswap)

theorem shuffleArray_perm (a : List (Option String)) (rng : Rng)
    (hbytes : ∀ n, rng.stream n % 256 < 255) : (shuffleArray a rng).1.Perm a := by
  cases a with
  | nil => exact List.Perm.refl _
  | cons x t =>
    exact shuffleLoop_perm (x :: t).length.pred (x :: t) rng hbytes (by simp)

/-- Whether an obfuscated-map slot holds a real entry. -/
def isRealB : Option ChaffField → Bool
  | some cf => cf.isReal
  | none => false

/-- Whether an output entry of addChaffToData is marked real. -/
def isRealEntry (p : String × Option ChaffField) : Bool :=
  isRealB p.2

theorem decoyEntries_length (key fieldType : String) (rng : Rng) (n : Nat) :
    (decoyEntries key fieldType rng n).1.length = n := by
  induction n generalizing rng with
  | zero => rfl
  | succ k ih => simp [decoyEntries, ih]

theorem fieldEntries_length (key : String) (v : PrimValue) (decoys : Nat) (rng : Rng) :
    (fieldEntries key v decoys rng).1.length = decoys + 1 := by
  simp [fieldEntries, decoyEntries_length]

theorem buildEntries_length (decoys : Nat) (fields : List (String × PrimValue)) (rng : Rng) :
    (buildEntries decoys fields rng).1.length = fields.length * (decoys + 1) := by
  induction fields generalizing rng with
  | nil => simp [buildEntries]
  | cons p fs ih =>
    obtain ⟨k, v⟩ := p
    simp only [buildEntries, List.length_append, List.length_cons]
    rw [fieldEntries_length, ih]
    ring

theorem decoyEntries_countP (key fieldType : String) (rng : Rng) (n : Nat) :
    (decoyEntries key fieldType rng n).1.countP (fun e => e.2.isReal) = 0 := by
  induction n generalizing rng with
  | zero => rfl
  | succ k ih => simp [decoyEntries, List.countP_cons, ih]

theorem fieldEntries_countP (key : String) (v : PrimValue) (decoys : Nat) (rng : Rng) :
    (fieldEntries key v decoys rng).1.countP (fun e => e.2.isReal) = 1 := by
  simp [fieldEntries, List.countP_cons, decoyEntries_countP]

theorem buildEntries_countP (decoys : Nat) (fields : List (String × PrimValue)) (rng : Rng) :
    (buildEntries decoys fields rng).1.countP (fun e => e.2.isReal) = fields.length := by
  induction fields generalizing rng with
  | nil => rfl
  | cons p fs ih =>
    obtain ⟨k, v⟩ := p
    simp only [buildEntries, List.countP_append, List.length_cons]
    rw [fieldEntries_countP, ih]
    omega

theorem jsLookup_of_mem (entries : List (String × ChaffField)) (e : String × ChaffField)
    (hnd : (entries.map Prod.fst).Nodup) (hmem : e ∈ entries) :
    jsLookup entries e.1 = some e.2 := by
  have hnd' : (entries.reverse.map Prod.fst).Nodup := by
    rw [List.map_reverse]
    exact List.nodup_reverse.mpr hnd
  exact lookup_of_mem_of_nodup entries.reverse e hnd' (List.mem_reverse.mpr hmem)

theorem drawBytes_stream (n : Nat) (r : Rng) : (drawBytes n r).2.stream = r.stream := by
  induction n generalizing r with
  | zero => rfl
  | succ k ih => simpa [drawBytes, Rng.nextByte] using ih ⟨r.stream, r.pos + 1⟩

theorem genRandomString_stream (len : Nat) (r : Rng) :
    (genRandomString len r).2.stream = r.stream := by
  simp [genRandomString, drawBytes_stream]

theorem generateChaffValue_stream (fieldType : String) (r : Rng) :
    (generateChaffValue fieldType r).2.stream = r.stream := by
  unfold generateChaffValue
  split
  · simpa [Rng.next] using genRandomString_stream _ ⟨r.stream, r.pos + 1⟩
  · split
    · rfl
    · split
      · rfl
      · split
        · rfl
        · simpa using genRandomString_stream 10 r

theorem decoyEntries_stream (key fieldType : String) (r : Rng) (n : Nat) :
    (decoyEntries key fieldType r n).2.stream = r.stream := by
  induction n generalizing r with
  | zero => rfl
  | succ k ih =>
    simp only [decoyEntries]
    rw [ih, generateChaffValue_stream, genRandomString_stream]

theorem fieldEntries_stream (key : String) (v : PrimValue) (decoys : Nat) (r : Rng) :
    (fieldEntries key v decoys r).2.stream = r.stream := by
  simp only [fieldEntries]
  rw [decoyEntries_stream, genRandomString_stream]

theorem buildEntries_stream (decoys : Nat) (fields : List (String × PrimValue)) (r : Rng) :
    (buildEntries decoys fields r).2.stream = r.stream := by
  induction fields generalizing r with
  | nil => rfl
  | cons p fs ih =>
    obtain ⟨k, v⟩ := p
    simp only [buildEntries]
    rw [ih, fieldEntries_stream]

theorem addChaff_fst_eq (fields : List (String × PrimValue)) (decoys : Nat) (rng : Rng) :
    (addChaffToData fields decoys rng).1 =
      (shuffleArray (((buildEntries decoys fields rng).1.map Prod.fst).map some)
          (buildEntries decoys fields rng).2).1.enum.map
        (fun p => ("field_" ++ toString p.1,
          p.2.bind (jsLookup (buildEntries decoys fields rng).1))) := by
  simp [addChaffToData]

theorem addChaff_keys (fields : List (String × PrimValue)) (decoys : Nat) (rng : Rng)
    (hbytes : ∀ n, rng.stream n % 256 < 255) :
    (addChaffToData fields decoys rng).1.map Prod.fst =
      (List.range (fields.length * (decoys + 1))).map (fun i => "field_" ++ toString i) := by
  rw [addChaff_fst_eq]
  have hperm := shuffleArray_perm (((buildEntries decoys fields rng).1.map Prod.fst).map some)
    (buildEntries decoys fields rng).2
    (fun n => by rw [buildEntries_stream]; exact hbytes n)
  have hlen : (shuffleArray (((buildEntries decoys fields rng).1.map Prod.fst).map some)
      (buildEntries decoys fields rng).2).1.length = fields.length * (decoys + 1) := by
    rw [hperm.length_eq]
    simp [buildEntries_length]
  rw [List.map_map]
  have hcomp : (Prod.fst ∘ (fun p : Nat × Option String => ("field_" ++ toString p.1,
      p.2.bind (jsLookup (buildEntries decoys fields rng).1)))) =
      ((fun i => "field_" ++ toString i) ∘ Prod.fst) := rfl
  rw [hcomp, ← List.map_map, List.enum_map_fst, hlen]

theorem addChaff_length (fields : List (String × PrimValue)) (decoys : Nat) (rng : Rng)
    (hbytes : ∀ n, rng.stream n % 256 < 255) :
    (addChaffToData fields decoys rng).1.length = fields.length * (decoys + 1) := by
  have h := congrArg List.length (addChaff_keys fields decoys rng hbytes)
  simpa using h

theorem addChaff_count_real (fields : List (String × PrimValue)) (decoys : Nat) (rng : Rng)
    (hnd : ((buildEntries decoys fields rng).1.map Prod.fst).Nodup)
    (hbytes : ∀ n, rng.stream n % 256 < 255) :
    (addChaffToData fields decoys rng).1.countP isRealEntry = fields.length := by
  rw [addChaff_fst_eq]
  have hperm := shuffleArray_perm (((buildEntries decoys fields rng).1.map Prod.fst).map some)
    (buildEntries decoys fields rng).2
    (fun n => by rw [buildEntries_stream]; exact hbytes n)
  rw [List.countP_map]
  have h1 : (isRealEntry ∘ (fun p : Nat × Option String => ("field_" ++ toString p.1,
      p.2.bind (jsLookup (buildEntries decoys fields rng).1)))) =
      (fun p : Nat × Option String =>
        isRealB (p.2.bind (jsLookup (buildEntries decoys fields rng).1))) := rfl
  rw [h1]
  have h2 : ((shuffleArray (((buildEntries decoys fields rng).1.map Prod.fst).map some)
      (buildEntries decoys fields rng).2).1.enum).countP
      (fun p : Nat × Option String =>
        isRealB (p.2.bind (jsLookup (buildEntries decoys fields rng).1))) =
      (((shuffleArray (((buildEntries decoys fields rng).1.map Prod.fst).map some)
      (buildEntries decoys fields rng).2).1.enum).map Prod.snd).countP
      (fun ok => isRealB (ok.bind (jsLookup (buildEntries decoys fields rng).1))) := by
    rw [List.countP_map]
    rfl
  rw [h2, List.enum_map_snd, hperm.countP_eq, List.countP_map, List.countP_map]
  have h3 : (((fun ok => isRealB (Option.bind ok (jsLookup (buildEntries decoys fields rng).1)))
      ∘ some) ∘ Prod.fst) =
      (fun e : String × ChaffField =>
        isRealB (jsLookup (buildEntries decoys fields rng).1 e.1)) := rfl
  rw [h3]
  have h4 : (buildEntries decoys fields rng).1.countP
      (fun e => isRealB (jsLookup (buildEntries decoys fields rng).1 e.1)) =
      (buildEntries decoys fields rng).1.countP (fun e => e.2.isReal) := by
    apply List.countP_congr
    intro e he
    rw [jsLookup_of_mem (buildEntries decoys fields rng).1 e hnd he]
    exact Iff.rfl
  rw [h4, buildEntries_countP]

/-- A byte stream that is constantly zero. -/
def rngZero : Rng := ⟨fun _ => 0, 0⟩

/-- The byte stream 0, 1, 2, ... -/
def rngNats : Rng := ⟨fun n => n, 0⟩

/-- A byte stream that is constantly 255, the value at which the shuffle
swap index overflows. -/
def rngAll255 : Rng := ⟨fun _ => 255, 0⟩

/-- The byte stream 0, 1, ..., 253, 254, 0, 1, ...: distinct early draws
and never the overflowing byte 255. -/
def rngMod255 : Rng := ⟨fun n => n % 255, 0⟩

theorem rngMod255_bytes : ∀ n, rngMod255.stream n % 256 < 255 := by
  intro n
  have h : n % 255 < 255 := Nat.mod_lt _ (by omega)
  have h2 : n % 255 % 256 = n % 255 := Nat.mod_eq_of_lt (by omega)
  simpa [rngMod255, h2] using h

/-- C2 (code bug): the spec requires removeChaff to invert addChaff on
primitive-valued field maps, but the source reconstructs the original
field name from the first property name of the stored {value, isReal}
object - the literal string "value" - whose suffix-stripping always
yields the empty string.  On the one-field map a = 1 with ratio 3 and
the byte stream 0, 1, 2, ..., the round trip returns the map with the
single key "" instead of the key "a". -/
theorem chaff_roundtrip_code_bug :
    removeChaffFromData (addChaffToData [("a", PrimValue.num 1)] 3 rngNats).1 =
      some [("", PrimValue.num 1)] ∧
    some [("", PrimValue.num 1)] ≠ some [("a", PrimValue.num 1)] := by
  constructor
  · decide
  · decide

/-- C3 (counterexample): with the constantly-zero byte stream, the real
entry and the decoy entry of the single field a = 1 draw the same
4-character suffix, so the decoy assignment overwrites the real entry in
the intermediate object; both output slots read the decoy, and the
number of isReal entries is 0, not the field count 1. -/
theorem chaff_cardinality_counterexample :
    ¬ ((addChaffToData [("a", PrimValue.num 1)] 1 rngZero).1.countP isRealEntry =
      [("a", PrimValue.num 1)].length) := by
  decide

/-- C3 (amended): for every field map, ratio and random stream in which
the generated real and decoy keys are pairwise distinct (no suffix
collisions) and every drawn byte is below 255 (so the shuffle never
steps out of bounds), addChaff returns exactly n*(r+1) entries, keyed
field_0 through field_(n*(r+1)-1), of which exactly n are real. -/
theorem chaff_cardinality_amended (fields : List (String × PrimValue)) (decoys : Nat)
    (rng : Rng) (hnd : ((buildEntries decoys fields rng).1.map Prod.fst).Nodup)
    (hbytes : ∀ n, rng.stream n % 256 < 255) :
    (addChaffToData fields decoys rng).1.length = fields.length * (decoys + 1) ∧
    (addChaffToData fields decoys rng).1.map Prod.fst =
      (List.range (fields.length * (decoys + 1))).map (fun i => "field_" ++ toString i) ∧
    (addChaffToData fields decoys rng).1.countP isRealEntry = fields.length :=
  ⟨addChaff_length fields decoys rng hbytes,
   addChaff_keys fields decoys rng hbytes,
   addChaff_count_real fields decoys rng hnd hbytes⟩

/-- C3 (witness): the amended cardinality theorem applied to the
one-field map a = 1 with ratio 1 and the stream 0, 1, ..., 254, 0, ...,
whose two generated keys are distinct. -/
theorem chaff_cardinality_amended_witness :
    ((buildEntries 1 [("a", PrimValue.num 1)] rngMod255).1.map Prod.fst).Nodup ∧
    (addChaffToData [("a", PrimValue.num 1)] 1 rngMod255).1.length = 2 ∧
    (addChaffToData [("a", PrimValue.num 1)] 1 rngMod255).1.countP isRealEntry = 1 := by
  have h := chaff_cardinality_amended [("a", PrimValue.num 1)] 1 rngMod255
    (by decide) rngMod255_bytes
  exact ⟨by decide, h.1, h.2.2⟩

/-- C4 (counterexample): the swap index is floor(byte * (i + 1) / 255),
which at byte 255 equals i + 1, outside the segment 0..i; on the
two-element array with the constantly-255 stream, the first swap reads
past the end and writes past the end, leaving an undefined slot and a
three-element result that is not a permutation of the input. -/
theorem shuffle_safety_counterexample :
    jIndex 255 1 = 2 ∧
    ¬ jIndex 255 1 ≤ 1 ∧
    (shuffleArray [some "a", some "b"] rngAll255).1 = [some "a", none, some "b"] ∧
    ¬ (shuffleArray [some "a", some "b"] rngAll255).1.Perm [some "a", some "b"] := by
  have heq : (shuffleArray [some "a", some "b"] rngAll255).1 = [some "a", none, some "b"] := by
    decide
  refine ⟨by decide, by decide, heq, ?_⟩
  intro h
  rw [heq] at h
  have := h.length_eq
  simp at this

/-- C4 (amended): the swap partner of position i is
jIndex byte i = floor(byte * (i + 1) / 255), which lies in 0..i for
every byte below 255 and in 0..i+1 for every byte, reaching i + 1
exactly at byte 255; whenever every drawn byte is below 255, every swap
stays in bounds and the shuffled array is a permutation of its input.
The choice is not uniform over 0..i. -/
theorem shuffle_safety_amended :
    (∀ b i, b < 255 → jIndex b i ≤ i) ∧
    (∀ b i, b ≤ 255 → jIndex b i ≤ i + 1) ∧
    (∀ i, jIndex 255 i = i + 1) ∧
    (∀ (a : List (Option String)) (rng : Rng),
      (∀ n, rng.stream n % 256 < 255) → (shuffleArray a rng).1.Perm a) :=
  ⟨fun _ _ hb => jIndex_le hb,
   fun _ i hb => jIndex_le_succ i hb,
   jIndex_at_255,
   fun a rng hbytes => shuffleArray_perm a rng hbytes⟩

/-- C4 (witness): the amended safety theorem applied to byte 7 at
position 3 and to a concrete three-element shuffle under the stream
0, 1, ..., 254, 0, ... -/
theorem shuffle_safety_amended_witness :
    jIndex 7 3 ≤ 3 ∧
    (shuffleArray [some "x", some "y", some "z"] rngMod255).1.Perm
      [some "x", some "y", some "z"] :=
  ⟨shuffle_safety_amended.1 7 3 (by decide),
   shuffle_safety_amended.2.2.2 [some "x", some "y", some "z"] rngMod255 rngMod255_bytes⟩

/-- A JSON-like value: what JSON.parse can produce (objects, strings,
numbers, booleans, null; numeric values in the engine are integer epoch
timestamps and counts) plus undefined, which property access on a
missing key produces.  Arrays do not occur in the engine's documents. -/
inductive JsonValue where
  | obj (fields : List (String × JsonValue))
  | str (s : String)
  | num (n : Int)
  | bool (b : Bool)
  | null
  | undefined

/-- One audit event as handed to logAuditEvent: a type tag, an epoch
timestamp, and an arbitrary details object.  The generated storage id
(log underscore now underscore randomSuffix) determines neither query
ordering nor content, so the audit namespace is modelled as the list of
events in insertion order. -/
structure AuditEvent where
  type : String
  timestamp : Int
  details : JsonValue

/-- Model of logAuditEvent: append the event to the audit namespace. -/
def logAuditEvent (log : List AuditEvent) (ev : AuditEvent) : List AuditEvent :=
  log ++ [ev]

/-- The iterate callback of getAuditLogs: entries are skipped while
skipped < offset, then pushed while count < limit; once the limit is
reached the iteration keeps running but pushes nothing. -/
def collectLogs : Nat → Nat → List AuditEvent → List AuditEvent
  | _, _, [] => []
  | off + 1, limit, _ :: es => collectLogs off limit es
  | 0, limit, e :: es =>
    if 0 < limit then e :: collectLogs 0 (limit - 1) es else collectLogs 0 limit es

/-- Model of getAuditLogs: collect the page with the skip and count
counters, then sort only the selected page descending by timestamp. -/
def getAuditLogs (limit offset : Nat) (store : List AuditEvent) : List AuditEvent :=
  sortByDesc (fun e => e.timestamp) (collectLogs offset limit store)

theorem collectLogs_eq_drop_take (es : List AuditEvent) :
    ∀ (off limit : Nat), collectLogs off limit es = (es.drop off).take limit := by
  induction es with
  | nil => intro off limit; simp [collectLogs]
  | cons e es ih =>
    intro off limit
    cases off with
    | succ o => simpa [collectLogs] using ih o limit
    | zero =>
      cases limit with
      | zero => simpa [collectLogs] using ih 0 0
      | succ l => simpa [collectLogs] using ih 0 l

/-- An audit event with a given timestamp, for the concrete examples. -/
def evT (t : Int) : AuditEvent :=
  ⟨"EVENT", t, JsonValue.null⟩

/-- C5: getAuditLogs enumerates the stored events in store order, skips
the first offset of them, takes up to limit of the remainder, and only
then sorts that selected page descending by timestamp.  In general the
result is a sorted-descending permutation of drop offset then take
limit; for events inserted with timestamps 5, 1, 3 the full query
returns them ordered 5, 3, 1; and with limit 2 and offset 1 on five
events with timestamps 10, 1, 2, 50, 40 the result is 2, 1 - the first
stored event is excluded before sorting, and the large late timestamps
outside the page never appear. -/
theorem audit_query_paging :
    (∀ (limit offset : Nat) (store : List AuditEvent),
      (getAuditLogs limit offset store).Perm ((store.drop offset).take limit) ∧
      (getAuditLogs limit offset store).Pairwise (fun a b => b.timestamp ≤ a.timestamp)) ∧
    getAuditLogs 10 0
      (logAuditEvent (logAuditEvent (logAuditEvent [] (evT 5)) (evT 1)) (evT 3)) =
      [evT 5, evT 3, evT 1] ∧
    getAuditLogs 2 1 [evT 10, evT 1, evT 2, evT 50, evT 40] = [evT 2, evT 1] := by
  refine ⟨fun limit offset store => ⟨?_, ?_⟩, rfl, rfl⟩
  · rw [getAuditLogs, collectLogs_eq_drop_take]
    exact sortByDesc_perm _ _
  · exact sortByDesc_sorted _ _

/-- JavaScript property access v.k: throws on null and undefined,
yields the field on an object (undefined when the key is absent), and
undefined on any other primitive. -/
def jsField : JsonValue → String → Except Unit JsonValue
  | .null, _ => .error ()
  | .undefined, _ => .error ()
  | .obj fs, k => .ok ((fs.lookup k).getD .undefined)
  | .str _, _ => .ok .undefined
  | .num _, _ => .ok .undefined
  | .bool _, _ => .ok .undefined

/-- Property access with the error case collapsed to undefined, for the
positions where the source has already dereferenced the same value. -/
def jsFieldD (v : JsonValue) (k : String) : JsonValue :=
  match jsField v k with
  | .ok w => w
  | .error _ => .undefined

/-- JavaScript Object.entries: an object's own fields; a string's
characters keyed by their index; the empty list on a number or boolean;
a thrown TypeError on null or undefined. -/
def jsEntries : JsonValue → Except Unit (List (String × JsonValue))
  | .obj fs => .ok fs
  | .str s => .ok (s.data.enum.map (fun p => (toString p.1, JsonValue.str (String.singleton p.2))))
  | .num _ => .ok []
  | .bool _ => .ok []
  | .null => .error ()
  | .undefined => .error ()

/-- The four storage namespaces of the vault (keyStore, metaStore,
dataStore, auditStore), each an independent localforage instance. -/
structure StoreState where
  keys : List (String × List Nat)
  meta : List (String × JsonValue)
  data : List (String × JsonValue)
  audit : List AuditEvent

/-- The export document assembled by exportVaultData; the final
JSON.stringify serialization step, which is injective on the document,
is elided. -/
structure ExportDoc where
  meta : List (String × JsonValue)
  data : List (String × JsonValue)
  timestamp : Int

/-- Model of exportVaultData: snapshot the metadata and records
namespaces, stamped with the current time. -/
def exportVaultData (now : Int) (st : StoreState) : ExportDoc :=
  ⟨st.meta, st.data, now⟩

inductive ImportError where
  | ImportCorrupt
deriving DecidableEq

/-- Upsert every listed entry into a namespace, in list order. -/
def setAll (m : List (String × JsonValue)) (fs : List (String × JsonValue)) :
    List (String × JsonValue) :=
  fs.foldl (fun acc p => setItem acc p.1 p.2) m

/-- Model of importVaultData.  The input is the JSON.parse result of the
supplied text, none when parsing throws.  The source dereferences
importData.meta and enumerates its entries, upserts them, then does the
same for importData.data, then logs one IMPORT event whose details carry
the document timestamp and the two entry counts; every thrown error is
caught and surfaced as the import-corrupt failure, with all upserts
already performed left in place. -/
def importVaultData (doc : Option JsonValue) (now : Int) (st : StoreState) :
    Except ImportError Unit × StoreState :=
  match doc with
  | none => (.error .ImportCorrupt, st)
  | some d =>
    match jsField d "meta" with
    | .error _ => (.error .ImportCorrupt, st)
    | .ok metaV =>
      match jsEntries metaV with
      | .error _ => (.error .ImportCorrupt, st)
      | .ok metaEs =>
        let st1 : StoreState := { st with meta := setAll st.meta metaEs }
        match jsField d "data" with
        | .error _ => (.error .ImportCorrupt, st1)
        | .ok dataV =>
          match jsEntries dataV with
          | .error _ => (.error .ImportCorrupt, st1)
          | .ok dataEs =>
            let st2 : StoreState := { st1 with data := setAll st1.data dataEs }
            let ev : AuditEvent := ⟨"IMPORT", now,
              .obj [("timestamp", jsFieldD d "timestamp"),
                    ("metaCount", .num metaEs.length),
                    ("dataCount", .num dataEs.length)]⟩
            (.ok (), { st2 with audit := logAuditEvent st2.audit ev })

theorem lookup_setAll (fs : List (String × JsonValue)) :
    ∀ (m : List (String × JsonValue)), ((fs.map Prod.fst).Nodup) → ∀ (k : String),
    (setAll m fs).lookup k =
      match fs.lookup k with
      | some v => some v
      | none => m.lookup k := by
  induction fs with
  | nil => intro m _ k; rfl
  | cons p fs ih =>
    intro m hnd k
    obtain ⟨k1, v1⟩ := p
    simp only [List.map_cons, List.nodup_cons] at hnd
    have hstep : setAll m ((k1, v1) :: fs) = setAll (setItem m k1 v1) fs := rfl
    rw [hstep, ih (setItem m k1 v1) hnd.2 k]
    by_cases hk : k = k1
    · subst hk
      rw [lookup_eq_none_of_not_mem fs k hnd.1]
      simp [List.lookup]
    · have hb : (k == k1) = false := beq_eq_false_iff_ne.mpr hk
      cases hfs : fs.lookup k with
      | some v => simp [List.lookup, hb, hfs]
      | none => simp [List.lookup, hb, hfs, lookup_setItem_ne m k1 k v1 hk]

/-- C7 (amended): for a parsed document whose meta and data fields are
objects with unique keys, importVaultData upserts every entry of each
into the corresponding namespace, leaves every key not named in the
document unchanged, never touches the key namespace, and appends exactly
one IMPORT audit event whose details carry the document timestamp and
the two entry counts; it fails with the import-corrupt error, changing
nothing, when the text cannot be parsed as JSON or when dereferencing or
enumerating the meta field throws (meta null, undefined or missing from
a null document).  A document whose meta or data is a plain number,
boolean or string is NOT rejected: Object.entries yields an empty (or
character) list and the import succeeds. -/
theorem import_merge_amended (doc : JsonValue) (metaFs dataFs : List (String × JsonValue))
    (now : Int) (st : StoreState)
    (hmeta : jsField doc "meta" = .ok (.obj metaFs))
    (hdata : jsField doc "data" = .ok (.obj dataFs))
    (hndm : (metaFs.map Prod.fst).Nodup) (hndd : (dataFs.map Prod.fst).Nodup) :
    (importVaultData (some doc) now st).1 = .ok () ∧
    (∀ k, (importVaultData (some doc) now st).2.meta.lookup k =
      match metaFs.lookup k with
      | some v => some v
      | none => st.meta.lookup k) ∧
    (∀ k, (importVaultData (some doc) now st).2.data.lookup k =
      match dataFs.lookup k with
      | some v => some v
      | none => st.data.lookup k) ∧
    (importVaultData (some doc) now st).2.audit = st.audit ++
      [⟨"IMPORT", now, .obj [("timestamp", jsFieldD doc "timestamp"),
        ("metaCount", .num metaFs.length), ("dataCount", .num dataFs.length)]⟩] ∧
    (importVaultData (some doc) now st).2.keys = st.keys ∧
    importVaultData none now st = (.error .ImportCorrupt, st) ∧
    (∀ d2 : JsonValue, jsField d2 "meta" = .error () →
      importVaultData (some d2) now st = (.error .ImportCorrupt, st)) ∧
    (∀ (d2 metaV : JsonValue), jsField d2 "meta" = .ok metaV →
      jsEntries metaV = .error () →
      importVaultData (some d2) now st = (.error .ImportCorrupt, st)) ∧
    (∀ (d2 metaV dataV : JsonValue)
      (metaEs dataEs : List (String × JsonValue)),
      jsField d2 "meta" = .ok metaV → jsEntries metaV = .ok metaEs →
      jsField d2 "data" = .ok dataV → jsEntries dataV = .ok dataEs →
      (importVaultData (some d2) now st).1 = .ok ()) ∧
    (∀ n : Int, jsEntries (.num n) = .ok []) ∧
    (∀ b : Bool, jsEntries (.bool b) = .ok []) ∧
    jsEntries .null = .error () ∧
    jsEntries .undefined = .error () := by
  have hrun : importVaultData (some doc) now st =
      (.ok (), ⟨st.keys, setAll st.meta metaFs, setAll st.data dataFs,
        st.audit ++ [⟨"IMPORT", now, .obj [("timestamp", jsFieldD doc "timestamp"),
          ("metaCount", .num metaFs.length), ("dataCount", .num dataFs.length)]⟩]⟩) := by
    simp [importVaultData, hmeta, hdata, jsEntries, logAuditEvent]
  rw [hrun]
  refine ⟨rfl, ?_, ?_, rfl, rfl, rfl, ?_, ?_, ?_, fun n => rfl, fun b => rfl, rfl, rfl⟩
  · intro k
    exact lookup_setAll metaFs st.meta hndm k
  · intro k
    exact lookup_setAll dataFs st.data hndd k
  · intro d2 h2
    simp [importVaultData, h2]
  · intro d2 metaV h1 h2
    simp [importVaultData, h1, h2]
  · intro d2 metaV dataV metaEs dataEs hm1 hm2 hd1 hd2
    simp [importVaultData, hm1, hm2, hd1, hd2]

/-- C7 (counterexample): the document with meta an empty object and data
the number 7 is not of the expected export shape, yet importVaultData
accepts it - Object.entries of a number is empty - returning success and
appending an IMPORT audit event instead of failing with the
import-corrupt error. -/
theorem import_corrupt_counterexample :
    jsField (JsonValue.obj [("meta", JsonValue.obj []), ("data", JsonValue.num 7)]) "data" =
      .ok (JsonValue.num 7) ∧
    (importVaultData (some (JsonValue.obj [("meta", JsonValue.obj []),
      ("data", JsonValue.num 7)])) 0 ⟨[], [], [], []⟩).1 = .ok () ∧
    (importVaultData (some (JsonValue.obj [("meta", JsonValue.obj []),
      ("data", JsonValue.num 7)])) 0 ⟨[], [], [], []⟩).2.audit.length = 1 :=
  ⟨rfl, rfl, rfl⟩

/-- C7 (witness): the amended import theorem applied to a concrete
document importing one metadata entry into the empty store. -/
theorem import_merge_amended_witness :
    jsField (JsonValue.obj [("meta", JsonValue.obj [("a", JsonValue.num 1)]),
      ("data", JsonValue.obj [])]) "meta" = .ok (JsonValue.obj [("a", JsonValue.num 1)]) ∧
    (importVaultData (some (JsonValue.obj [("meta", JsonValue.obj [("a", JsonValue.num 1)]),
      ("data", JsonValue.obj [])])) 9 ⟨[], [], [], []⟩).1 = .ok () ∧
    (importVaultData (some (JsonValue.obj [("meta", JsonValue.obj [("a", JsonValue.num 1)]),
      ("data", JsonValue.obj [])])) 9 ⟨[], [], [], []⟩).2.keys = [] := by
  have h := import_merge_amended
    (JsonValue.obj [("meta", JsonValue.obj [("a", JsonValue.num 1)]), ("data", JsonValue.obj [])])
    [("a", JsonValue.num 1)] [] 9 ⟨[], [], [], []⟩ rfl rfl (by decide) (by decide)
  exact ⟨rfl, h.1, h.2.2.2.2.1⟩

/-- C8: the export document is exactly the metadata and records
namespaces plus the timestamp: any two store states agreeing on those
two namespaces - whatever their key store and audit log hold - export
identical documents, so the master key and the audit history never
appear in an export. -/
theorem export_scope (s1 s2 : StoreState) (now : Int)
    (hm : s1.meta = s2.meta) (hd : s1.data = s2.data) :
    exportVaultData now s1 = exportVaultData now s2 ∧
    (exportVaultData now s1).meta = s1.meta ∧
    (exportVaultData now s1).data = s1.data ∧
    (exportVaultData now s1).timestamp = now := by
  simp [exportVaultData, hm, hd]

/-- C8 (witness): two stores with the same metadata and records but a
different key store and audit log export the same document. -/
theorem export_scope_witness :
    exportVaultData 7
      ⟨[("masterKey", [1, 2])], [("authSalt", JsonValue.str "00")],
        [("item1", JsonValue.str "ct")], [evT 1]⟩ =
    exportVaultData 7
      ⟨[], [("authSalt", JsonValue.str "00")], [("item1", JsonValue.str "ct")], []⟩ :=
  (export_scope
    ⟨[("masterKey", [1, 2])], [("authSalt", JsonValue.str "00")],
      [("item1", JsonValue.str "ct")], [evT 1]⟩
    ⟨[], [("authSalt", JsonValue.str "00")], [("item1", JsonValue.str "ct")], []⟩
    7 rfl rfl).1

/-- The lowercase hex digit b.toString(16) produces. -/
def hexDigitChar (n : Nat) : Char :=
  "0123456789abcdef".data.getD n '0'

/-- One byte rendered as b.toString(16).padStart(2, zero): two lowercase
hex digits. -/
def byteToHexChars (b : Nat) : List Char :=
  [hexDigitChar (b / 16), hexDigitChar (b % 16)]

/-- The salt serialization of initializeAuth: every byte to two-digit
lowercase hex, concatenated. -/
def bytesToHex (bs : List Nat) : String :=
  ⟨bs.flatMap byteToHexChars⟩

/-- parseInt of one lowercase hex digit; an unexpected character gives
NaN, which the Uint8Array constructor coerces to 0. -/
def hexVal (c : Char) : Nat :=
  let i := "0123456789abcdef".data.indexOf c
  if i < 16 then i else 0

/-- The salt parser of authenticateWithPassword: the regex match splits
the hex string into chunks of up to two characters, and each chunk goes
through parseInt base 16. -/
def hexPairsToBytes : List Char → List Nat
  | a :: b :: rest => (hexVal a * 16 + hexVal b) :: hexPairsToBytes rest
  | [a] => [hexVal a]
  | [] => []

/-- Parse a hex string back to bytes. -/
def hexToBytes (s : String) : List Nat :=
  hexPairsToBytes s.data

theorem hexVal_hexDigitChar : ∀ d, d < 16 → hexVal (hexDigitChar d) = d := by
  decide

theorem hexToBytes_bytesToHex (bs : List Nat) (h : ∀ b ∈ bs, b < 256) :
    hexToBytes (bytesToHex bs) = bs := by
  induction bs with
  | nil => rfl
  | cons b rest ih =>
    have hb : b < 256 := h b (List.mem_cons_self b rest)
    have hrest : ∀ x ∈ rest, x < 256 := fun x hx => h x (List.mem_cons_of_mem b hx)
    have hdiv : b / 16 < 16 := Nat.div_lt_of_lt_mul (by omega)
    have hmod : b % 16 < 16 := Nat.mod_lt _ (by omega)
    have hchars : bytesToHex (b :: rest) =
        ⟨hexDigitChar (b / 16) :: hexDigitChar (b % 16) :: (rest.flatMap byteToHexChars)⟩ := by
      simp [bytesToHex, byteToHexChars]
    rw [hexToBytes, hchars]
    show (hexVal (hexDigitChar (b / 16)) * 16 + hexVal (hexDigitChar (b % 16))) ::
        hexPairsToBytes (rest.flatMap byteToHexChars) = b :: rest
    rw [hexVal_hexDigitChar _ hdiv, hexVal_hexDigitChar _ hmod]
    have hbytes : b / 16 * 16 + b % 16 = b := by omega
    rw [hbytes]
    have := ih hrest
    rw [hexToBytes, bytesToHex] at this
    rw [this]

theorem bytesToHex_ne_empty (b : Nat) (bs : List Nat) : bytesToHex (b :: bs) ≠ "" := by
  intro h
  have h2 := congrArg String.data h
  simp [bytesToHex, byteToHexChars] at h2

/-- Modelled from the spec: deriveKeyFromPassword runs PBKDF2 with 100000
iterations of SHA-256 over the password bytes and the salt (a Web Crypto
primitive, not in the repository).  The derivation is deterministic in
password and salt, and the spec's key-determinism property (section 8:
changing the password changes the exported output) makes it collision
free across passwords for a fixed salt; it is therefore idealized as an
injective encoding: the password's code points, a separator above the
byte range, then the salt. -/
def deriveKeyBytes (password : String) (salt : List Nat) : List Nat :=
  password.data.map Char.toNat ++ 256 :: salt

theorem deriveKeyBytes_inj {p q : String} {salt : List Nat}
    (h : deriveKeyBytes p salt = deriveKeyBytes q salt) : p = q := by
  unfold deriveKeyBytes at h
  have h2 : p.data.map Char.toNat = q.data.map Char.toNat := List.append_cancel_right h
  have hinj : Function.Injective Char.toNat := by
    intro a b hab
    have h3 := congrArg Char.ofNat hab
    simpa using h3
  exact String.ext (List.map_injective_iff.mpr hinj h2)

/-- An opaque CryptoKey; the exported raw form is its byte string (the
base64 transport encoding of arrayBufferToBase64, which is injective on
byte strings, is elided). -/
structure CryptoKey where
  bytes : List Nat
deriving DecidableEq

/-- Model of exportKey. -/
def exportKey (k : CryptoKey) : List Nat := k.bytes

/-- Model of importKey. -/
def importKey (bs : List Nat) : CryptoKey := ⟨bs⟩

/-- Model of deriveKeyFromPassword at the default iteration count. -/
def deriveKeyFromPassword (password : String) (salt : List Nat) : CryptoKey :=
  ⟨deriveKeyBytes password salt⟩

/-- The plaintext of one vault item as serialized by the record
lifecycle manager before encryption. -/
structure ItemData where
  name : String
  type : String
  createdAt : Int
  updatedAt : Int
  data : List (String × PrimValue)
deriving DecidableEq

/-- The authenticated-encryption envelope {ciphertext, iv} persisted per
record.  Modelled from the spec: AES-256-GCM (a Web Crypto primitive,
not in the repository) is idealized as authenticated encryption whose
ciphertext term carries the sealing key bytes and the plaintext. -/
structure Envelope where
  keyTag : List Nat
  plain : ItemData
  iv : List Nat
deriving DecidableEq

/-- Model of encryptData: draw a fresh 12-byte IV and seal. -/
def encryptData (d : ItemData) (key : CryptoKey) (rng : Rng) : Envelope × Rng :=
  let pr := drawBytes 12 rng
  (⟨key.bytes, d, pr.1⟩, pr.2)

/-- Model of decryptData: authenticated decryption succeeds exactly
under the sealing key; any other key fails tag verification, which the
source surfaces as a thrown decryption error (here none). -/
def decryptData (env : Envelope) (key : CryptoKey) : Option ItemData :=
  if env.keyTag = key.bytes then some env.plain else none

inductive AuthError where
  | AuthDataMissing
  | MasterKeyMissing
  | AuthMismatch
deriving DecidableEq

/-- Read a metadata string: the source throws when the value is falsy
(absent or empty), and a non-string value would make the regex match
throw; all of these surface as the missing-auth-data failure. -/
def getMetaStr (st : StoreState) (k : String) : Option String :=
  match st.meta.lookup k with
  | some (.str s) => if s = "" then none else some s
  | _ => none

/-- Read a numeric metadata value with the source's fallback to 0
(getMeta(...) or-else 0). -/
def getMetaNumD (st : StoreState) (k : String) : Int :=
  match st.meta.lookup k with
  | some (.num n) => n
  | _ => 0

/-- Model of initializeAuth: generate a 16-byte salt, derive and export
the master key, persist the key bytes under masterKey, the hex salt
under authSalt and the rotation timestamp, and log the initialization.
The storage backend in this model is total, so the catch branch that
returns false after a storage failure is unreachable. -/
def initializeAuth (password : String) (now : Int) (rng : Rng) (st : StoreState) :
    (Bool × StoreState) × Rng :=
  let sb := drawBytes 16 rng
  let saltHex := bytesToHex sb.1
  let masterKeyBytes := exportKey (deriveKeyFromPassword password sb.1)
  let st1 : StoreState := { st with keys := setItem st.keys "masterKey" masterKeyBytes }
  let st2 : StoreState := { st1 with meta := setItem st1.meta "authSalt" (.str saltHex) }
  let st3 : StoreState := { st2 with meta := setItem st2.meta "lastKeyRotation" (.num now) }
  let st4 : StoreState := { st3 with audit := (logAuditEvent st3.audit
    ⟨"AUTH_INIT", now, .obj [("success", .bool true)]⟩) }
  ((true, st4), sb.2)

/-- Model of authenticateWithPassword: load and parse the salt, derive
and export a key from the supplied password, load the stored master-key
bytes, compare for exact equality, log the attempt; on a match import
the stored bytes and update the rotation timestamp when at least 30
days have elapsed (the source compares the elapsed-days quotient with
30 using a float division that is exact at these magnitudes, so the
comparison is the integer comparison now - last at-least 30 days of
milliseconds).  The error taxonomy of the thrown messages is kept in
the Except value; the source collapses them all to success false. -/
def authenticateWithPassword (password : String) (now : Int) (st : StoreState) :
    Except AuthError CryptoKey × StoreState :=
  match getMetaStr st "authSalt" with
  | none => (.error .AuthDataMissing,
      { st with audit := (logAuditEvent st.audit
        ⟨"AUTH_ERROR", now, .obj [("error", .str "Authentication data not found")]⟩) })
  | some saltHex =>
    let salt := hexToBytes saltHex
    let derivedBytes := exportKey (deriveKeyFromPassword password salt)
    match st.keys.lookup "masterKey" with
    | none => (.error .MasterKeyMissing,
        { st with audit := (logAuditEvent st.audit
          ⟨"AUTH_ERROR", now, .obj [("error", .str "Master key not found")]⟩) })
    | some stored =>
      if derivedBytes = stored then
        let st1 : StoreState := { st with audit := (logAuditEvent st.audit
          ⟨"AUTH_ATTEMPT", now, .obj [("success", .bool true)]⟩) }
        let last := getMetaNumD st1 "lastKeyRotation"
        let st2 : StoreState :=
          if 30 * 86400000 ≤ now - last
          then { st1 with meta := setItem st1.meta "lastKeyRotation" (.num now) }
          else st1
        (.ok (importKey stored), st2)
      else
        (.error .AuthMismatch,
          { st with audit := (logAuditEvent st.audit
            ⟨"AUTH_ATTEMPT", now, .obj [("success", .bool false)]⟩) })

theorem auth_run_nosalt {st : StoreState} (password : String) (now : Int)
    (hs : getMetaStr st "authSalt" = none) :
    authenticateWithPassword password now st =
      (.error .AuthDataMissing,
        { st with audit := (logAuditEvent st.audit
          ⟨"AUTH_ERROR", now, .obj [("error", .str "Authentication data not found")]⟩) }) := by
  simp [authenticateWithPassword, hs]

theorem auth_run_nokey {st : StoreState} {saltHex : String} (password : String) (now : Int)
    (hs : getMetaStr st "authSalt" = some saltHex)
    (hm : st.keys.lookup "masterKey" = none) :
    authenticateWithPassword password now st =
      (.error .MasterKeyMissing,
        { st with audit := (logAuditEvent st.audit
          ⟨"AUTH_ERROR", now, .obj [("error", .str "Master key not found")]⟩) }) := by
  simp [authenticateWithPassword, hs, hm]

theorem auth_run_mismatch {st : StoreState} {saltHex : String} {stored : List Nat}
    (password : String) (now : Int)
    (hs : getMetaStr st "authSalt" = some saltHex)
    (hm : st.keys.lookup "masterKey" = some stored)
    (hne : exportKey (deriveKeyFromPassword password (hexToBytes saltHex)) ≠ stored) :
    authenticateWithPassword password now st =
      (.error .AuthMismatch,
        { st with audit := (logAuditEvent st.audit
          ⟨"AUTH_ATTEMPT", now, .obj [("success", .bool false)]⟩) }) := by
  simp [authenticateWithPassword, hs, hm, hne]

theorem auth_run_ok {st : StoreState} {saltHex : String} {stored : List Nat}
    (password : String) (now : Int)
    (hs : getMetaStr st "authSalt" = some saltHex)
    (hm : st.keys.lookup "masterKey" = some stored)
    (heq : exportKey (deriveKeyFromPassword password (hexToBytes saltHex)) = stored) :
    authenticateWithPassword password now st =
      (.ok (importKey stored),
        if 30 * 86400000 ≤ now - getMetaNumD st "lastKeyRotation"
        then { st with meta := setItem st.meta "lastKeyRotation" (JsonValue.num now), audit := logAuditEvent st.audit ⟨"AUTH_ATTEMPT", now, JsonValue.obj [("success", JsonValue.bool true)]⟩ }
        else { st with audit := logAuditEvent st.audit ⟨"AUTH_ATTEMPT", now, JsonValue.obj [("success", JsonValue.bool true)]⟩ }) := by
  simp only [authenticateWithPassword, hs, hm, heq, if_true, getMetaNumD]

/-- C6 (amended): on a successful authenticate the metadata namespace is
exactly the old one with lastKeyRotation set to the current time when at
least 30 days (not strictly more) have elapsed since the recorded
rotation timestamp (a missing timestamp counting as epoch 0), and
exactly the old one otherwise; the records and key namespaces are never
touched (no re-encryption), and every failing authenticate leaves all
three unchanged. -/
theorem rotation_timestamp_amended (password : String) (now : Int) (st : StoreState) :
    (∀ k, (authenticateWithPassword password now st).1 = .ok k →
      ((authenticateWithPassword password now st).2.meta =
        (if 30 * 86400000 ≤ now - getMetaNumD st "lastKeyRotation"
         then setItem st.meta "lastKeyRotation" (.num now)
         else st.meta) ∧
       (authenticateWithPassword password now st).2.data = st.data ∧
       (authenticateWithPassword password now st).2.keys = st.keys)) ∧
    (∀ e, (authenticateWithPassword password now st).1 = .error e →
      ((authenticateWithPassword password now st).2.meta = st.meta ∧
       (authenticateWithPassword password now st).2.data = st.data ∧
       (authenticateWithPassword password now st).2.keys = st.keys)) := by
  cases hs : getMetaStr st "authSalt" with
  | none =>
    rw [auth_run_nosalt password now hs]
    exact ⟨fun k hk => by simp at hk, fun e _ => ⟨rfl, rfl, rfl⟩⟩
  | some saltHex =>
    cases hm : st.keys.lookup "masterKey" with
    | none =>
      rw [auth_run_nokey password now hs hm]
      exact ⟨fun k hk => by simp at hk, fun e _ => ⟨rfl, rfl, rfl⟩⟩
    | some stored =>
      by_cases heq : exportKey (deriveKeyFromPassword password (hexToBytes saltHex)) = stored
      · rw [auth_run_ok password now hs hm heq]
        refine ⟨fun k _ => ?_, fun e he => by simp at he⟩
        by_cases hrot : 30 * 86400000 ≤ now - getMetaNumD st "lastKeyRotation"
        · rw [if_pos hrot, if_pos hrot]
          exact ⟨rfl, rfl, rfl⟩
        · rw [if_neg hrot, if_neg hrot]
          exact ⟨rfl, rfl, rfl⟩
      · rw [auth_run_mismatch password now hs hm heq]
        exact ⟨fun k hk => by simp at hk, fun e _ => ⟨rfl, rfl, rfl⟩⟩

/-- C6 (counterexample): exactly 30 days after initialization - not
strictly more - a successful authenticate still rewrites the
lastKeyRotation timestamp, because the source compares the elapsed days
with at-least-30 rather than more-than-30. -/
theorem rotation_boundary_counterexample :
    ¬ ((30 : Int) * 86400000 <
        2592000000 - getMetaNumD (initializeAuth "pw" 0 rngZero ⟨[], [], [], []⟩).1.2
          "lastKeyRotation") ∧
    (authenticateWithPassword "pw" 2592000000
        (initializeAuth "pw" 0 rngZero ⟨[], [], [], []⟩).1.2).2.meta.lookup "lastKeyRotation" =
      some (JsonValue.num 2592000000) ∧
    (2592000000 : Int) ≠ 0 := by
  refine ⟨by decide, rfl, by decide⟩

/-- C6 (witness): the amended rotation theorem applied to a concrete
successful authenticate five milliseconds after initialization, where
the elapsed time is under 30 days and the records namespace is
unchanged. -/
theorem rotation_timestamp_amended_witness :
    (authenticateWithPassword "pw" 5 (initializeAuth "pw" 0 rngZero ⟨[], [], [], []⟩).1.2).1 =
      .ok ⟨deriveKeyBytes "pw" (drawBytes 16 rngZero).1⟩ ∧
    (authenticateWithPassword "pw" 5 (initializeAuth "pw" 0 rngZero ⟨[], [], [], []⟩).1.2).2.data =
      (initializeAuth "pw" 0 rngZero ⟨[], [], [], []⟩).1.2.data := by
  have h := (rotation_timestamp_amended "pw" 5
    (initializeAuth "pw" 0 rngZero ⟨[], [], [], []⟩).1.2).1
    ⟨deriveKeyBytes "pw" (drawBytes 16 rngZero).1⟩ (by rfl)
  exact ⟨rfl, h.2.1⟩

/-- C1: after initialize(P1) succeeds, authenticate(P1) succeeds and
returns a key under which sealing and opening round-trip; for any
P2 distinct from P1, authenticate(P2) fails with the auth-mismatch
error; and for every supplied password, authenticate succeeds exactly
when the exported bytes of the key derived from it and the stored salt
are byte-identical to the persisted master-key bytes (which equal the
bytes derived from P1).  The key derivation is the idealized injective
PBKDF2 model. -/
theorem auth_correctness (p1 p2 : String) (now0 now1 : Int) (rng : Rng) (st : StoreState)
    (hne : p2 ≠ p1) :
    (initializeAuth p1 now0 rng st).1.1 = true ∧
    (∃ k, (authenticateWithPassword p1 now1 (initializeAuth p1 now0 rng st).1.2).1 = .ok k ∧
      ∀ (d : ItemData) (rng2 : Rng), decryptData (encryptData d k rng2).1 k = some d) ∧
    (authenticateWithPassword p2 now1 (initializeAuth p1 now0 rng st).1.2).1 =
      .error .AuthMismatch ∧
    (∀ p : String,
      (∃ k, (authenticateWithPassword p now1 (initializeAuth p1 now0 rng st).1.2).1 = .ok k) ↔
      deriveKeyBytes p (drawBytes 16 rng).1 = deriveKeyBytes p1 (drawBytes 16 rng).1) := by
  have hlen : (drawBytes 16 rng).1.length = 16 := drawBytes_length 16 rng
  have hhex : bytesToHex (drawBytes 16 rng).1 ≠ "" := by
    cases hsb : (drawBytes 16 rng).1 with
    | nil => rw [hsb] at hlen; simp at hlen
    | cons b bs => exact bytesToHex_ne_empty b bs
  have hmeta1 : (initializeAuth p1 now0 rng st).1.2.meta =
      setItem (setItem st.meta "authSalt" (.str (bytesToHex (drawBytes 16 rng).1)))
        "lastKeyRotation" (.num now0) := by
    simp [initializeAuth]
  have hkeys1 : (initializeAuth p1 now0 rng st).1.2.keys =
      setItem st.keys "masterKey" (deriveKeyBytes p1 (drawBytes 16 rng).1) := by
    simp [initializeAuth, exportKey, deriveKeyFromPassword]
  have hsalt : getMetaStr (initializeAuth p1 now0 rng st).1.2 "authSalt" =
      some (bytesToHex (drawBytes 16 rng).1) := by
    rw [getMetaStr, hmeta1,
      lookup_setItem_ne _ _ _ _ (show ("authSalt" : String) ≠ "lastKeyRotation" by decide),
      lookup_setItem_self]
    simp [hhex]
  have hkey : (initializeAuth p1 now0 rng st).1.2.keys.lookup "masterKey" =
      some (deriveKeyBytes p1 (drawBytes 16 rng).1) := by
    rw [hkeys1, lookup_setItem_self]
  have hparse : hexToBytes (bytesToHex (drawBytes 16 rng).1) = (drawBytes 16 rng).1 :=
    hexToBytes_bytesToHex _ (drawBytes_lt 16 rng)
  refine ⟨by simp [initializeAuth], ?_, ?_, ?_⟩
  · refine ⟨importKey (deriveKeyBytes p1 (drawBytes 16 rng).1), ?_, ?_⟩
    · rw [auth_run_ok p1 now1 hsalt hkey (by rw [hparse]; rfl)]
    · intro d rng2
      simp [encryptData, decryptData, importKey]
  · have hne2 : exportKey (deriveKeyFromPassword p2
        (hexToBytes (bytesToHex (drawBytes 16 rng).1))) ≠
        deriveKeyBytes p1 (drawBytes 16 rng).1 := by
      rw [hparse]
      intro h
      exact hne (deriveKeyBytes_inj h)
    rw [auth_run_mismatch p2 now1 hsalt hkey hne2]
  · intro p
    by_cases hd : deriveKeyBytes p (drawBytes 16 rng).1 = deriveKeyBytes p1 (drawBytes 16 rng).1
    · rw [auth_run_ok p now1 hsalt hkey (by rw [hparse]; exact hd)]
      exact ⟨fun _ => hd, fun _ => ⟨importKey (deriveKeyBytes p1 (drawBytes 16 rng).1), rfl⟩⟩
    · rw [auth_run_mismatch p now1 hsalt hkey (by rw [hparse]; exact hd)]
      constructor
      · intro hex
        rcases hex with ⟨k, hk⟩
        simp at hk
      · intro h
        exact absurd h hd

/-- C1 (witness): the authentication-correctness theorem applied to the
passwords P1 and P2 over the all-zero random stream and the empty
store. -/
theorem auth_correctness_witness :
    ("P2" : String) ≠ "P1" ∧
    (authenticateWithPassword "P2" 1 (initializeAuth "P1" 0 rngZero ⟨[], [], [], []⟩).1.2).1 =
      .error .AuthMismatch :=
  ⟨by decide, (auth_correctness "P1" "P2" 0 1 rngZero ⟨[], [], [], []⟩ (by decide)).2.2.1⟩

/-- The in-memory authentication session of the contexts: the
isAuthenticated flag and the masterKey held only while unlocked. -/
structure Session where
  isAuthenticated : Bool
  masterKey : Option CryptoKey

/-- Model of the crypto provider's encrypt: null without a master key,
otherwise seal with it (an encryption failure is also surfaced as
null). -/
def cryptoEncrypt (sess : Session) (d : ItemData) (rng : Rng) : Option Envelope × Rng :=
  match sess.masterKey with
  | none => (none, rng)
  | some k =>
    let er := encryptData d k rng
    (some er.1, er.2)

/-- Model of the crypto provider's decrypt: null without a master key;
a thrown decryption failure is caught and surfaced as null. -/
def cryptoDecrypt (sess : Session) (env : Envelope) : Option ItemData :=
  match sess.masterKey with
  | none => none
  | some k => decryptData env k

/-- The records and audit namespaces the record lifecycle manager
touches. -/
structure DataState where
  records : List (String × Envelope)
  audit : List AuditEvent

/-- A decrypted item with its storage id attached, as the data context
exposes it. -/
structure DataItem where
  id : String
  item : ItemData
deriving DecidableEq

/-- The caller-supplied part of a new item (id and both timestamps are
assigned by createItem). -/
structure NewItem where
  name : String
  type : String
  data : List (String × PrimValue)

/-- The partial updates accepted by updateItem; the shallow object
spread overrides exactly the fields present. -/
structure ItemUpdates where
  name : Option String
  type : Option String
  data : Option (List (String × PrimValue))

/-- The shallow merge of updateItem: spread the current item, spread the
updates over it, then refresh updatedAt to now (createdAt survives from
the current item). -/
def applyUpdates (cur : ItemData) (u : ItemUpdates) (now : Int) : ItemData :=
  ⟨u.name.getD cur.name, u.type.getD cur.type, cur.createdAt, now, u.data.getD cur.data⟩

/-- Model of createItem: refuse (null) when not authenticated; otherwise
assign the id from the clock and a random draw, stamp both timestamps
with now, encrypt (null from the provider aborts via the caught throw,
with nothing persisted), persist the envelope under the id and append
one ITEM_CREATE audit event.  The trailing refreshItems call mutates
only the in-memory item list, not the stores. -/
def createItem (sess : Session) (itm : NewItem) (now : Int) (rng : Rng) (st : DataState) :
    (Option String × DataState) × Rng :=
  if sess.isAuthenticated then
    let pr := rng.next
    let id := "item_" ++ toString now ++ "_" ++ toString pr.1
    let newItem : ItemData := ⟨itm.name, itm.type, now, now, itm.data⟩
    let er := cryptoEncrypt sess newItem pr.2
    match er.1 with
    | none => ((none, st), er.2)
    | some env =>
      ((some id, ⟨setItem st.records id env,
        logAuditEvent st.audit ⟨"ITEM_CREATE", now, .obj [("id", .str id), ("type", .str itm.type)]⟩⟩),
       er.2)
  else ((none, st), rng)

/-- Model of getItem: null when locked, when the id is absent, or when
decryption fails; otherwise the decrypted item with its id attached. -/
def getItem (sess : Session) (id : String) (st : DataState) : Option DataItem :=
  if sess.isAuthenticated then
    match st.records.lookup id with
    | none => none
    | some env =>
      match cryptoDecrypt sess env with
      | none => none
      | some d => some ⟨id, d⟩
  else none

/-- Model of updateItem: false when locked; load and decrypt the current
record (a missing or undecryptable record throws, caught as false with
nothing persisted), shallow-merge the updates, refresh updatedAt,
re-encrypt, persist under the same id and append one ITEM_UPDATE
event. -/
def updateItem (sess : Session) (id : String) (u : ItemUpdates) (now : Int) (rng : Rng)
    (st : DataState) : (Bool × DataState) × Rng :=
  if sess.isAuthenticated then
    match st.records.lookup id with
    | none => ((false, st), rng)
    | some env =>
      match cryptoDecrypt sess env with
      | none => ((false, st), rng)
      | some cur =>
        let updated := applyUpdates cur u now
        let er := cryptoEncrypt sess updated rng
        match er.1 with
        | none => ((false, st), er.2)
        | some env2 =>
          ((true, ⟨setItem st.records id env2,
            logAuditEvent st.audit ⟨"ITEM_UPDATE", now, .obj [("id", .str id)]⟩⟩), er.2)
  else ((false, st), rng)

/-- Model of deleteItem: false when locked; otherwise remove the entry
unconditionally (no existence check) and append one ITEM_DELETE
event. -/
def deleteItem (sess : Session) (id : String) (now : Int) (st : DataState) : Bool × DataState :=
  if sess.isAuthenticated then
    (true, ⟨removeItem st.records id,
      logAuditEvent st.audit ⟨"ITEM_DELETE", now, .obj [("id", .str id)]⟩⟩)
  else (false, st)

/-- Model of refreshItems: an early return (none, in-memory items left
as they are) when not authenticated; otherwise walk the records
namespace in store order - listData followed by getData per id visits
exactly the stored entries - drop every record whose decryption returns
null, attach ids, and sort the survivors descending by updatedAt. -/
def refreshItems (sess : Session) (records : List (String × Envelope)) :
    Option (List DataItem) :=
  if sess.isAuthenticated then
    some (sortByDesc (fun it => it.item.updatedAt)
      (records.filterMap (fun p => (cryptoDecrypt sess p.2).map (fun d => ⟨p.1, d⟩))))
  else none

/-- C9: with the vault unlocked under some key, the listing returns
exactly those stored records that decrypt under that key, each with its
storage id attached, sorted descending by updatedAt; a record that fails
to decrypt is dropped without aborting the listing (the function is
total and the remaining records still appear). -/
theorem listing_policy (sess : Session) (key : CryptoKey) (records : List (String × Envelope))
    (hauth : sess.isAuthenticated = true) (hkey : sess.masterKey = some key) :
    ∃ l, refreshItems sess records = some l ∧
      l.Pairwise (fun a b => b.item.updatedAt ≤ a.item.updatedAt) ∧
      ∀ d : DataItem, d ∈ l ↔
        ∃ env, (d.id, env) ∈ records ∧ decryptData env key = some d.item := by
  refine ⟨sortByDesc (fun it => it.item.updatedAt)
    (records.filterMap (fun p => (cryptoDecrypt sess p.2).map (fun d => ⟨p.1, d⟩))),
    by simp [refreshItems, hauth], sortByDesc_sorted _ _, ?_⟩
  intro d
  rw [sortByDesc_mem, List.mem_filterMap]
  constructor
  · rintro ⟨p, hp, hfp⟩
    simp only [cryptoDecrypt, hkey] at hfp
    rcases Option.map_eq_some'.mp hfp with ⟨x, hx, hmk⟩
    subst hmk
    exact ⟨p.2, by simpa using hp, hx⟩
  · rintro ⟨env, henv, hdec⟩
    refine ⟨(d.id, env), henv, ?_⟩
    simp [cryptoDecrypt, hkey, hdec]

/-- C9 (witness): the listing theorem applied to a two-record store in
which the second envelope was sealed under a different key: the result
is defined and contains exactly the first record. -/
theorem listing_policy_witness :
    (Session.mk true (some (CryptoKey.mk [1]))).masterKey = some (CryptoKey.mk [1]) ∧
    (∃ l, refreshItems (Session.mk true (some (CryptoKey.mk [1])))
        [("id1", Envelope.mk [1] ⟨"Bank", "password", 0, 3, []⟩ []),
         ("id2", Envelope.mk [2] ⟨"Note", "note", 0, 9, []⟩ [])] = some l ∧
      l.Pairwise (fun a b => b.item.updatedAt ≤ a.item.updatedAt) ∧
      ∀ d : DataItem, d ∈ l ↔
        ∃ env, (d.id, env) ∈
          [("id1", Envelope.mk [1] ⟨"Bank", "password", 0, 3, []⟩ []),
           ("id2", Envelope.mk [2] ⟨"Note", "note", 0, 9, []⟩ [])] ∧
          decryptData env (CryptoKey.mk [1]) = some d.item) :=
  ⟨rfl, listing_policy (Session.mk true (some (CryptoKey.mk [1]))) (CryptoKey.mk [1])
    [("id1", Envelope.mk [1] ⟨"Bank", "password", 0, 3, []⟩ []),
     ("id2", Envelope.mk [2] ⟨"Note", "note", 0, 9, []⟩ [])] rfl rfl⟩

/-- C10: while the vault is locked (not authenticated, no in-memory
master key), createItem returns null, updateItem and deleteItem return
false, getItem returns null, encrypt and decrypt return null, and
refreshItems declines to rebuild the listing; every one of them returns
the store state unchanged - no record write, no audit append - and
consumes no randomness. -/
theorem locked_state_guard (sess : Session) (itm : NewItem) (id : String) (u : ItemUpdates)
    (d : ItemData) (env : Envelope) (now : Int) (rng : Rng) (st : DataState)
    (hauth : sess.isAuthenticated = false) (hkey : sess.masterKey = none) :
    createItem sess itm now rng st = ((none, st), rng) ∧
    updateItem sess id u now rng st = ((false, st), rng) ∧
    deleteItem sess id now st = (false, st) ∧
    getItem sess id st = none ∧
    cryptoEncrypt sess d rng = (none, rng) ∧
    cryptoDecrypt sess env = none ∧
    refreshItems sess st.records = none := by
  refine ⟨?_, ?_, ?_, ?_, ?_, ?_, ?_⟩ <;>
    simp [createItem, updateItem, deleteItem, getItem, cryptoEncrypt, cryptoDecrypt,
      refreshItems, hauth, hkey]

/-- C10 (witness): the locked-state theorem applied to the locked
session and a concrete store. -/
theorem locked_state_guard_witness :
    (Session.mk false none).isAuthenticated = false ∧
    createItem (Session.mk false none) (NewItem.mk "n" "t" []) 0 rngZero (DataState.mk [] []) =
      ((none, DataState.mk [] []), rngZero) ∧
    deleteItem (Session.mk false none) "id" 0 (DataState.mk [] []) =
      (false, DataState.mk [] []) := by
  have h := locked_state_guard (Session.mk false none) (NewItem.mk "n" "t" []) "id"
    (ItemUpdates.mk none none none) ⟨"n", "t", 0, 0, []⟩ (Envelope.mk [] ⟨"n", "t", 0, 0, []⟩ [])
    0 rngZero (DataState.mk [] []) rfl rfl
  exact ⟨rfl, h.1, h.2.2.1⟩

end SecureVault
